import Mathlib

/-!
# The `_vec3` class template of `vec.h`

A shallow embedding of the three-component vector template `_vec3<T>` and of
its friend functions, followed by the properties stated about them.

* The storage `T d[3]` is a sequence of scalars of length exactly three.
* `operator[]` takes a C++ `int` and performs no bounds check, so it is a
  partial lookup: an index outside `0, 1, 2` has no defined result (`none`).
* Every friend function reads its operands through `operator[]`, as the source
  does, and therefore lives in `Option`; that it always produces a result is
  part of what is proved.
* The scalar type `T` is a parameter.  The definitions ask only for the
  operators the template body uses (`+`, `-`, `*`, the literal `0`); the
  algebraic laws a property needs are named in the theorem that needs them.
* `sqrt` comes from `<cmath>` and is passed to `mag` as a parameter, together
  with the result type that plays the role of `double`.
* The scalar type `double` of the one instantiation `double3` is modelled as
  IEEE 754 binary64 with rounding to nearest, ties to even.  Properties that
  hold in exact arithmetic and not under rounding are proved for exact scalar
  types and evaluated on `double` at an input where they fail.
-/

namespace Vec

/-- The class template `_vec3<T>`: the protected member `T d[3]`. -/
structure _vec3 (T : Type) where
  /-- The component storage. -/
  d : List T
  /-- The storage has exactly three elements. -/
  size_eq : d.length = 3

namespace _vec3

variable {T : Type}

/-- Equality of vectors is decided on the stored elements. -/
instance [DecidableEq T] : DecidableEq (_vec3 T)
  | ⟨d₁, _⟩, ⟨d₂, _⟩ =>
    if h : d₁ = d₂ then isTrue (by subst h; rfl)
    else isFalse (fun e => h (congrArg _vec3.d e))

/-- The constructor `_vec3<T>(T a, T b, T c) : d{a, b, c}`. -/
def mk3 (a b c : T) : _vec3 T := ⟨[a, b, c], rfl⟩

/-- The default constructor `_vec3<T>() : d{0, 0, 0}`. -/
def zero [Zero T] : _vec3 T := ⟨[0, 0, 0], rfl⟩

/-- The accessor `T operator[] (int i) const { return d[i]; }`.  The index is a
signed integer and is not checked; reading outside the three stored elements
is undefined in the source and is `none` here. -/
def operator_index (v : _vec3 T) (i : Int) : Option T :=
  if 0 ≤ i then v.d.get? i.toNat else none

end _vec3

open _vec3

variable {T : Type}

/-- The friend `operator+`:
`_vec3<T>(a[0] + b[0], a[1] + b[1], a[2] + b[2])`. -/
def operator_plus [Add T] (a b : _vec3 T) : Option (_vec3 T) := do
  let a0 ← a.operator_index 0
  let b0 ← b.operator_index 0
  let a1 ← a.operator_index 1
  let b1 ← b.operator_index 1
  let a2 ← a.operator_index 2
  let b2 ← b.operator_index 2
  pure (mk3 (a0 + b0) (a1 + b1) (a2 + b2))

/-- The friend `operator-`:
`_vec3<T>(a[0] - b[0], a[1] - b[1], a[2] - b[2])`. -/
def operator_minus [Sub T] (a b : _vec3 T) : Option (_vec3 T) := do
  let a0 ← a.operator_index 0
  let b0 ← b.operator_index 0
  let a1 ← a.operator_index 1
  let b1 ← b.operator_index 1
  let a2 ← a.operator_index 2
  let b2 ← b.operator_index 2
  pure (mk3 (a0 - b0) (a1 - b1) (a2 - b2))

/-- The friend `dot`: `a[0] * b[0] + a[1] * b[1] + a[2] * b[2]`. -/
def dot [Add T] [Mul T] (a b : _vec3 T) : Option T := do
  let a0 ← a.operator_index 0
  let b0 ← b.operator_index 0
  let a1 ← a.operator_index 1
  let b1 ← b.operator_index 1
  let a2 ← a.operator_index 2
  let b2 ← b.operator_index 2
  pure (a0 * b0 + a1 * b1 + a2 * b2)

/-- The friend `mag`: `sqrt(dot(a, a))`.  `sqrt` is the `<cmath>` function,
from the scalar type to the result type `D` (`double` in the source). -/
def mag {D : Type} [Add T] [Mul T] (sqrt : T → D) (a : _vec3 T) : Option D := do
  let s ← dot a a
  pure (sqrt s)

/-- Assignment through the mutable accessor `T& operator[] (int i) { return d[i]; }`:
the statement `v[i] = x`.  The reference returned is to `d[i]`, so the
assignment replaces that one stored element; like the read it is unchecked, and
writing outside the three stored elements is undefined in the source and
`none` here. -/
def _vec3.operator_index_assign (v : _vec3 T) (i : Int) (x : T) : Option (_vec3 T) :=
  if 0 ≤ i ∧ i < 3 then some ⟨v.d.set i.toNat x, by simp [v.size_eq]⟩ else none

/-- The friend `operator<<`: `out << a[0] << " " << a[1] << " " << a[2]`.
The stream is the text written to it so far, and `text` is the stream
insertion of one scalar (the standard library's `operator<<` for `T`). -/
def operator_lshift (text : T → String) (out : String) (a : _vec3 T) : Option String := do
  let a0 ← a.operator_index 0
  let a1 ← a.operator_index 1
  let a2 ← a.operator_index 2
  pure (out ++ text a0 ++ " " ++ text a1 ++ " " ++ text a2)

/-! ## The scalar type `double`

The one instantiation the repository makes is `double3 = _vec3<double>`.  The
properties that depend on how `double` rounds are checked against the model
below. -/

/-- Modelled from the spec: the scalar type `double` ("double-precision floating
values") of the instantiation `double3`, which `vec.h` uses and does not
define.  It is IEEE 754 binary64: every finite value is an integer multiple of
`2^-1074`, and `finite n` is the value `n * 2^-1074`; beside the finite values
there are the two infinities and the not-a-number value.  The two zeros
compare equal in C++ and are one value here. -/
inductive double where
  | finite (n : Int)
  | inf (negative : Bool)
  | nan
  deriving DecidableEq

/-- The alias `using double3 = _vec3<double>`. -/
abbrev double3 : Type := _vec3 double

namespace double

/-- One step per binary digit of the answer of `floorLog2`: with `k + 1` steps
left, the digit of weight `2^k` is set when `2^(2^k) ≤ a`. -/
def log2Aux : Nat → Nat → Nat → Nat
  | 0, _, acc => acc
  | k + 1, a, acc =>
    if 2 ^ 2 ^ k ≤ a then log2Aux k (a / 2 ^ 2 ^ k) (acc + 2 ^ k) else log2Aux k a acc

/-- The position of the leading binary digit of `a`, for `0 < a < 2^(2^13)`. -/
def floorLog2 (a : Nat) : Nat := log2Aux 13 a 0

/-- Rounding to the nearest `double`, ties to even (the default rounding mode),
of the exact value `x * 2^-(1074 + shift)`: the digits below the 53 leading ones
and below the unit `2^-1074` are dropped, and a result of magnitude `2^1024` or
more is an infinity. -/
def round (x : Int) (shift : Nat) : double :=
  let a := x.natAbs
  if a = 0 then finite 0 else
    let drop := max shift (floorLog2 a + 1 - 53)
    let q := a / 2 ^ drop
    let rem := a % 2 ^ drop
    let q1 := if 2 ^ drop < 2 * rem ∨ (2 * rem = 2 ^ drop ∧ q % 2 = 1) then q + 1 else q
    let r := q1 * 2 ^ (drop - shift)
    if 2 ^ 2098 ≤ r then inf (decide (x < 0))
    else finite (if x < 0 then -(r : Int) else (r : Int))

/-- The conversion of an integer to `double`, as in `double3 a{0,1,2}`. -/
def ofInt (k : Int) : double := round (k * ((2 ^ 1074 : Nat) : Int)) 0

/-- Addition of `double`: the exact sum, rounded. -/
def add : double → double → double
  | finite a, finite b => round (a + b) 0
  | finite _, inf s => inf s
  | inf s, finite _ => inf s
  | inf s, inf t => if s = t then inf s else nan
  | _, _ => nan

/-- Negation of `double`. -/
def neg : double → double
  | finite a => finite (-a)
  | inf s => inf (!s)
  | nan => nan

/-- Subtraction of `double`: the exact difference, rounded. -/
def sub (x y : double) : double := add x (neg y)

/-- Multiplication of `double`: the exact product, rounded. -/
def mul : double → double → double
  | finite a, finite b => round (a * b) 1074
  | finite a, inf s => if a = 0 then nan else inf (xor (decide (a < 0)) s)
  | inf s, finite b => if b = 0 then nan else inf (xor s (decide (b < 0)))
  | inf s, inf t => inf (xor s t)
  | _, _ => nan

/-- The `<cmath>` function `sqrt` on `double`: the exact square root, rounded.
With `m = n * 2^110` and `r` the integer square root of `m`, the root of
`n * 2^-1074` lies between `r * 2^-592` and `(r + 1) * 2^-592`, and `r` has more
than 53 digits, so rounding `r`, or `r` and a half when `r` is not the exact
root, gives the same `double` as rounding the exact root. -/
def sqrt : double → double
  | finite n =>
    if n < 0 then nan else
      let m := n.toNat * 2 ^ 110
      let r := Nat.sqrt m
      round (((2 * r + (if r * r = m then 0 else 1)) * 2 ^ 481 : Nat) : Int) 0
  | inf s => if s then nan else inf false
  | nan => nan

/-- The comparison `<=` of `double`; it is false when an operand is not a
number. -/
def le : double → double → Bool
  | finite a, finite b => decide (a ≤ b)
  | finite _, inf s => !s
  | inf s, finite _ => s
  | inf s, inf t => s || !t
  | _, _ => false

instance : Add double := ⟨add⟩

instance : Sub double := ⟨sub⟩

instance : Mul double := ⟨mul⟩

instance : Zero double := ⟨finite 0⟩

instance : LE double := ⟨fun x y => le x y = true⟩

instance (x y : double) : Decidable (x ≤ y) := inferInstanceAs (Decidable (le x y = true))

end double

/-! ## Reading a vector through `operator[]` -/

section Lookup

variable {T : Type}

/-- Every vector is the three-argument constructor applied to its elements. -/
theorem _vec3.exists_mk3 (a : _vec3 T) : ∃ x y z, a = mk3 x y z := by
  obtain ⟨d, hd⟩ := a
  match d, hd with
  | [x, y, z], _ => exact ⟨x, y, z, rfl⟩

@[simp] theorem _vec3.mk3_index_zero (x y z : T) : (mk3 x y z).operator_index 0 = some x := rfl

@[simp] theorem _vec3.mk3_index_one (x y z : T) : (mk3 x y z).operator_index 1 = some y := rfl

@[simp] theorem _vec3.mk3_index_two (x y z : T) : (mk3 x y z).operator_index 2 = some z := rfl

/-- The same vector built twice has the same arguments. -/
theorem _vec3.mk3_inj {x y z x1 y1 z1 : T} (h : mk3 x y z = mk3 x1 y1 z1) :
    x = x1 ∧ y = y1 ∧ z = z1 := by
  have hd : [x, y, z] = [x1, y1, z1] := congrArg _vec3.d h
  simpa using hd

@[simp] theorem operator_plus_mk3 [Add T] (x y z u v w : T) :
    operator_plus (mk3 x y z) (mk3 u v w) = some (mk3 (x + u) (y + v) (z + w)) := rfl

@[simp] theorem operator_minus_mk3 [Sub T] (x y z u v w : T) :
    operator_minus (mk3 x y z) (mk3 u v w) = some (mk3 (x - u) (y - v) (z - w)) := rfl

@[simp] theorem dot_mk3 [Add T] [Mul T] (x y z u v w : T) :
    dot (mk3 x y z) (mk3 u v w) = some (x * u + y * v + z * w) := rfl

@[simp] theorem mag_mk3 {D : Type} [Add T] [Mul T] (sqrt : T → D) (x y z : T) :
    mag sqrt (mk3 x y z) = some (sqrt (x * x + y * y + z * z)) := rfl

/-- At a non-negative index the read is the list lookup at that position. -/
theorem _vec3.operator_index_natCast (v : _vec3 T) (n : Nat) :
    v.operator_index (n : Int) = v.d.get? n := by
  simp [_vec3.operator_index]

/-- The unchecked read is defined exactly at the indices `0`, `1`, `2`. -/
theorem _vec3.operator_index_isSome_iff (v : _vec3 T) (i : Int) :
    (v.operator_index i).isSome = true ↔ i = 0 ∨ i = 1 ∨ i = 2 := by
  obtain ⟨x, y, z, rfl⟩ := v.exists_mk3
  by_cases h : 0 ≤ i
  · obtain ⟨n, rfl⟩ := Int.eq_ofNat_of_zero_le h
    match n with
    | 0 => simp
    | 1 => simp
    | 2 => simp
    | n + 3 =>
      rw [_vec3.operator_index_natCast]
      simp only [mk3, List.get?_cons_succ, List.get?_nil, Option.isSome_none, Bool.false_eq_true,
        false_iff]
      omega
  · have h1 : i ≠ 0 := by omega
    have h2 : i ≠ 1 := by omega
    have h3 : i ≠ 2 := by omega
    simp [_vec3.operator_index, h, h1, h2, h3]

/-- Reading at an index other than `0` sees only the last two elements. -/
theorem _vec3.mk3_index_ne_zero (x t y z : T) (j : Int) (hj : j ≠ 0) :
    (mk3 t y z).operator_index j = (mk3 x y z).operator_index j := by
  by_cases h : 0 ≤ j
  · obtain ⟨n, rfl⟩ := Int.eq_ofNat_of_zero_le h
    match n, hj with
    | 0, hj => exact absurd rfl hj
    | n + 1, _ => rw [_vec3.operator_index_natCast, _vec3.operator_index_natCast]; rfl
  · simp [_vec3.operator_index, h]

/-- Reading at an index other than `1` does not see the middle element. -/
theorem _vec3.mk3_index_ne_one (y t x z : T) (j : Int) (hj : j ≠ 1) :
    (mk3 x t z).operator_index j = (mk3 x y z).operator_index j := by
  by_cases h : 0 ≤ j
  · obtain ⟨n, rfl⟩ := Int.eq_ofNat_of_zero_le h
    match n, hj with
    | 0, _ => rfl
    | 1, hj => exact absurd rfl hj
    | n + 2, _ => rw [_vec3.operator_index_natCast, _vec3.operator_index_natCast]; rfl
  · simp [_vec3.operator_index, h]

/-- Reading at an index other than `2` does not see the last element. -/
theorem _vec3.mk3_index_ne_two (z t x y : T) (j : Int) (hj : j ≠ 2) :
    (mk3 x y t).operator_index j = (mk3 x y z).operator_index j := by
  by_cases h : 0 ≤ j
  · obtain ⟨n, rfl⟩ := Int.eq_ofNat_of_zero_le h
    match n, hj with
    | 0, _ => rfl
    | 1, _ => rfl
    | 2, hj => exact absurd rfl hj
    | n + 3, _ => rw [_vec3.operator_index_natCast, _vec3.operator_index_natCast]; rfl
  · simp [_vec3.operator_index, h]

@[simp] theorem operator_lshift_mk3 (text : T → String) (out : String) (x y z : T) :
    operator_lshift text out (mk3 x y z) =
      some (out ++ text x ++ " " ++ text y ++ " " ++ text z) := rfl

end Lookup

/-! ## Facts of the scalar arithmetic -/

section Scalar

/-- A sum of three squares in a linearly ordered ring vanishes only when each
term does. -/
theorem sum_three_squares_eq_zero_iff {T : Type} [LinearOrderedRing T] (x y z : T) :
    x * x + y * y + z * z = 0 ↔ x = 0 ∧ y = 0 ∧ z = 0 := by
  have hx := mul_self_nonneg x
  have hy := mul_self_nonneg y
  have hz := mul_self_nonneg z
  rw [add_eq_zero_iff_of_nonneg (add_nonneg hx hy) hz, add_eq_zero_iff_of_nonneg hx hy,
    mul_self_eq_zero, mul_self_eq_zero, mul_self_eq_zero, and_assoc]

/-- The Euclidean norm of a point of real three-space, written out. -/
theorem euclidean_norm_three (x y z : ℝ) :
    ‖(WithLp.equiv 2 (Fin 3 → ℝ)).symm ![x, y, z]‖ = Real.sqrt (x * x + y * y + z * z) := by
  rw [EuclideanSpace.norm_eq]
  simp [Fin.sum_univ_three, sq_abs, pow_two]

/-- The triangle inequality for the written-out Euclidean norm. -/
theorem sqrt_sum_squares_add_le (x y z u v w : ℝ) :
    Real.sqrt ((x + u) * (x + u) + (y + v) * (y + v) + (z + w) * (z + w)) ≤
      Real.sqrt (x * x + y * y + z * z) + Real.sqrt (u * u + v * v + w * w) := by
  have h := norm_add_le ((WithLp.equiv 2 (Fin 3 → ℝ)).symm ![x, y, z])
    ((WithLp.equiv 2 (Fin 3 → ℝ)).symm ![u, v, w])
  have e : (WithLp.equiv 2 (Fin 3 → ℝ)).symm ![x, y, z] +
      (WithLp.equiv 2 (Fin 3 → ℝ)).symm ![u, v, w] =
      (WithLp.equiv 2 (Fin 3 → ℝ)).symm ![x + u, y + v, z + w] := by
    ext i
    fin_cases i <;> simp
  rw [e, euclidean_norm_three, euclidean_norm_three, euclidean_norm_three] at h
  exact h

/-- The Cauchy-Schwarz bound for three terms. -/
theorem cauchy_schwarz_three {T : Type} [LinearOrderedCommRing T] (x y z u v w : T) :
    (x * u + y * v + z * w) ^ 2 ≤ (x * x + y * y + z * z) * (u * u + v * v + w * w) := by
  nlinarith [sq_nonneg (x * v - y * u), sq_nonneg (x * w - z * u), sq_nonneg (y * w - z * v)]

end Scalar


/-! ## Facts of the `double` model -/

section Double

/-- The digit-by-digit search finds the exponent `e` with `2^e ≤ a < 2^(e+1)`. -/
theorem double.log2Aux_spec : ∀ (k a acc : Nat), 0 < a → a < 2 ^ 2 ^ k →
    ∃ e, double.log2Aux k a acc = acc + e ∧ 2 ^ e ≤ a ∧ a < 2 ^ (e + 1)
  | 0, a, acc, h0, h1 => ⟨0, rfl, by simpa using h0, by simpa using h1⟩
  | k + 1, a, acc, h0, h1 => by
    unfold double.log2Aux
    split_ifs with h
    · have hP : 0 < 2 ^ 2 ^ k := by positivity
      have hsq : 2 ^ 2 ^ (k + 1) = 2 ^ 2 ^ k * 2 ^ 2 ^ k := by
        rw [← pow_add, ← two_mul, ← pow_succ']
      have h2 : a / 2 ^ 2 ^ k < 2 ^ 2 ^ k := by
        rw [Nat.div_lt_iff_lt_mul hP]
        exact hsq ▸ h1
      have h3 : 0 < a / 2 ^ 2 ^ k := Nat.div_pos h hP
      obtain ⟨e, he, hl, hu⟩ := double.log2Aux_spec k _ (acc + 2 ^ k) h3 h2
      refine ⟨2 ^ k + e, by rw [he, Nat.add_assoc], ?_, ?_⟩
      · calc 2 ^ (2 ^ k + e) = 2 ^ 2 ^ k * 2 ^ e := pow_add 2 _ _
          _ ≤ 2 ^ 2 ^ k * (a / 2 ^ 2 ^ k) := Nat.mul_le_mul_left _ hl
          _ ≤ a := Nat.mul_div_le a _
      · calc a < 2 ^ 2 ^ k * (a / 2 ^ 2 ^ k + 1) := Nat.lt_mul_div_succ a hP
          _ ≤ 2 ^ 2 ^ k * 2 ^ (e + 1) := Nat.mul_le_mul_left _ hu
          _ = 2 ^ (2 ^ k + e + 1) := by rw [← pow_add, Nat.add_assoc]
    · exact double.log2Aux_spec k a acc h0 (not_le.1 h)

/-- On the magnitudes that occur, `floorLog2` is the position of the leading
binary digit. -/
theorem double.floorLog2_spec (a : Nat) (h0 : 0 < a) (h1 : a < 2 ^ 2 ^ 13) :
    2 ^ double.floorLog2 a ≤ a ∧ a < 2 ^ (double.floorLog2 a + 1) := by
  obtain ⟨e, he, hl, hu⟩ := double.log2Aux_spec 13 a 0 h0 h1
  have h : double.floorLog2 a = e := by rw [double.floorLog2, he, Nat.zero_add]
  rw [h]
  exact ⟨hl, hu⟩

/-- The square root of a non-negative finite `double`, from the integer square
root `r` of its scaled numerator, given by `r * r ≤ m < (r + 1) * (r + 1)`. -/
theorem double.sqrt_finite_eq (n : Int) (r : Nat) (hn : 0 ≤ n)
    (h1 : r * r ≤ n.toNat * 2 ^ 110) (h2 : n.toNat * 2 ^ 110 < (r + 1) * (r + 1)) :
    double.sqrt (double.finite n) =
      double.round (((2 * r + (if r * r = n.toNat * 2 ^ 110 then 0 else 1)) * 2 ^ 481 : Nat) :
        Int) 0 := by
  have hr : Nat.sqrt (n.toNat * 2 ^ 110) = r := (Nat.eq_sqrt.2 ⟨h1, h2⟩).symm
  simp only [double.sqrt, not_lt.2 hn, if_false, hr]

end Double

/-! ## The arithmetic contract -/

/-- C1: for every pair of vectors `a` and `b`, over any scalar type with `+`
and `*`, `dot(a, b)` returns the sum `a[0]*b[0] + a[1]*b[1] + a[2]*b[2]` of the
three pairwise products, in that order; and for `a = (0,1,2)`, `b = (0,0,1)` it
returns `2`. -/
theorem dot_sum_of_products :
    (∀ (T : Type) [Add T] [Mul T] (a b : _vec3 T),
      ∃ a0 a1 a2 b0 b1 b2,
        a.operator_index 0 = some a0 ∧ a.operator_index 1 = some a1 ∧
        a.operator_index 2 = some a2 ∧
        b.operator_index 0 = some b0 ∧ b.operator_index 1 = some b1 ∧
        b.operator_index 2 = some b2 ∧
        dot a b = some (a0 * b0 + a1 * b1 + a2 * b2)) ∧
    (∀ (T : Type) [NonAssocSemiring T], dot (mk3 (0 : T) 1 2) (mk3 0 0 1) = some 2) := by
  refine ⟨?_, ?_⟩
  · intro T _ _ a b
    obtain ⟨x, y, z, rfl⟩ := a.exists_mk3
    obtain ⟨u, v, w, rfl⟩ := b.exists_mk3
    exact ⟨x, y, z, u, v, w, rfl, rfl, rfl, rfl, rfl, rfl, rfl⟩
  · intro T _
    simp

/-- C2: for every pair of vectors `a` and `b`, over any scalar type with `-`,
and every index `i` among `0, 1, 2`, `operator-` returns a vector whose
component `i` is `a[i] - b[i]`; and for `a = (0,1,2)`, `b = (0,0,1)` it returns
`(0,1,1)`. -/
theorem operator_minus_component :
    (∀ (T : Type) [Sub T] (a b : _vec3 T) (i : Int), i = 0 ∨ i = 1 ∨ i = 2 →
      ∃ c x y, operator_minus a b = some c ∧ a.operator_index i = some x ∧
        b.operator_index i = some y ∧ c.operator_index i = some (x - y)) ∧
    (∀ (T : Type) [Ring T],
      operator_minus (mk3 (0 : T) 1 2) (mk3 0 0 1) = some (mk3 0 1 1)) := by
  refine ⟨?_, ?_⟩
  · intro T _ a b i hi
    obtain ⟨x, y, z, rfl⟩ := a.exists_mk3
    obtain ⟨u, v, w, rfl⟩ := b.exists_mk3
    rcases hi with rfl | rfl | rfl
    · exact ⟨_, x, u, rfl, rfl, rfl, rfl⟩
    · exact ⟨_, y, v, rfl, rfl, rfl, rfl⟩
    · exact ⟨_, z, w, rfl, rfl, rfl, rfl⟩
  · intro T _
    have h : (2 : T) - 1 = 1 := by norm_num
    simp [h]

/-- C2 at a concrete input: component 2 of `(5,7,9) - (1,2,3)` over the
integers. -/
theorem operator_minus_component_witness :
    ((2 : Int) = 0 ∨ (2 : Int) = 1 ∨ (2 : Int) = 2) ∧
    ∃ c x y, operator_minus (mk3 (5 : Int) 7 9) (mk3 1 2 3) = some c ∧
      (mk3 (5 : Int) 7 9).operator_index 2 = some x ∧
      (mk3 (1 : Int) 2 3).operator_index 2 = some y ∧
      c.operator_index 2 = some (x - y) :=
  ⟨by decide, operator_minus_component.1 Int (mk3 5 7 9) (mk3 1 2 3) 2 (by decide)⟩

/-- C3: for every pair of vectors `a` and `b`, over any scalar type with `+`,
and every index `i` among `0, 1, 2`, `operator+` returns a vector whose
component `i` is `a[i] + b[i]`. -/
theorem operator_plus_component {T : Type} [Add T] (a b : _vec3 T) (i : Int)
    (hi : i = 0 ∨ i = 1 ∨ i = 2) :
    ∃ c x y, operator_plus a b = some c ∧ a.operator_index i = some x ∧
      b.operator_index i = some y ∧ c.operator_index i = some (x + y) := by
  obtain ⟨x, y, z, rfl⟩ := a.exists_mk3
  obtain ⟨u, v, w, rfl⟩ := b.exists_mk3
  rcases hi with rfl | rfl | rfl
  · exact ⟨_, x, u, rfl, rfl, rfl, rfl⟩
  · exact ⟨_, y, v, rfl, rfl, rfl, rfl⟩
  · exact ⟨_, z, w, rfl, rfl, rfl, rfl⟩

/-- C3 at a concrete input: component 1 of `(1,2,3) + (10,20,30)` over the
integers. -/
theorem operator_plus_component_witness :
    ((1 : Int) = 0 ∨ (1 : Int) = 1 ∨ (1 : Int) = 2) ∧
    ∃ c x y, operator_plus (mk3 (1 : Int) 2 3) (mk3 10 20 30) = some c ∧
      (mk3 (1 : Int) 2 3).operator_index 1 = some x ∧
      (mk3 (10 : Int) 20 30).operator_index 1 = some y ∧
      c.operator_index 1 = some (x + y) :=
  ⟨by decide, operator_plus_component (mk3 1 2 3) (mk3 10 20 30) 1 (by decide)⟩

/-! ## Algebraic relations

These need laws of the scalar arithmetic and are stated for the scalar types
that have them: exact arithmetic (the integers, the rationals, the reals) and,
where no order is involved, wrap-around machine integers. -/

/-- C4, amended: for all vectors `a` and `b` over a scalar type with exact
arithmetic, one whose `+` and `-` form an additive group, `operator+` returns a
sum and subtracting `b` from that sum returns exactly `a`, in every component. -/
theorem operator_minus_operator_plus_cancel {T : Type} [AddGroup T] (a b : _vec3 T) :
    ∃ s, operator_plus a b = some s ∧ operator_minus s b = some a := by
  obtain ⟨x, y, z, rfl⟩ := a.exists_mk3
  obtain ⟨u, v, w, rfl⟩ := b.exists_mk3
  exact ⟨_, rfl, by simp⟩

/-- C4 on `double`, where it fails: with `a = (1,2,3)` and
`b = (2^60, 2^60, 2^60)` the sum `a + b` is rounded to `b` in every component,
and subtracting `b` from it returns `(0,0,0)`, which is not `a`: the error in
each component is the whole component of `a`. -/
theorem operator_minus_operator_plus_cancel_fails_on_double :
    operator_plus (mk3 (double.ofInt 1) (double.ofInt 2) (double.ofInt 3))
        (mk3 (double.ofInt (2 ^ 60)) (double.ofInt (2 ^ 60)) (double.ofInt (2 ^ 60))) =
      some (mk3 (double.ofInt (2 ^ 60)) (double.ofInt (2 ^ 60)) (double.ofInt (2 ^ 60))) ∧
    operator_minus (mk3 (double.ofInt (2 ^ 60)) (double.ofInt (2 ^ 60)) (double.ofInt (2 ^ 60)))
        (mk3 (double.ofInt (2 ^ 60)) (double.ofInt (2 ^ 60)) (double.ofInt (2 ^ 60))) =
      some (mk3 (double.ofInt 0) (double.ofInt 0) (double.ofInt 0)) ∧
    mk3 (double.ofInt 0) (double.ofInt 0) (double.ofInt 0) ≠
      mk3 (double.ofInt 1) (double.ofInt 2) (double.ofInt 3) := by
  decide!

/-- C5: for every vector `v` over a scalar type in which `x + 0 = x`,
`operator+` applied to `v` and the default-constructed vector returns `v`. -/
theorem operator_plus_zero {T : Type} [AddZeroClass T] (v : _vec3 T) :
    operator_plus v zero = some v := by
  obtain ⟨x, y, z, rfl⟩ := v.exists_mk3
  have h : (zero : _vec3 T) = mk3 0 0 0 := rfl
  simp [h]

/-- C6: for all vectors `a` and `b` over a scalar type with commutative
multiplication, `dot(a, b)` and `dot(b, a)` return the same scalar. -/
theorem dot_comm {T : Type} [Add T] [CommMagma T] (a b : _vec3 T) :
    ∃ r, dot a b = some r ∧ dot b a = some r := by
  obtain ⟨x, y, z, rfl⟩ := a.exists_mk3
  obtain ⟨u, v, w, rfl⟩ := b.exists_mk3
  refine ⟨_, rfl, ?_⟩
  simp [mul_comm]

/-- C7: for every vector `a` over a linearly ordered ring (the integers, the
rationals, the reals), `dot(a, a)` returns a scalar that is at least `0`. -/
theorem dot_self_nonneg {T : Type} [LinearOrderedRing T] (a : _vec3 T) :
    ∃ r, dot a a = some r ∧ 0 ≤ r := by
  obtain ⟨x, y, z, rfl⟩ := a.exists_mk3
  refine ⟨_, rfl, ?_⟩
  have hx := mul_self_nonneg x
  have hy := mul_self_nonneg y
  have hz := mul_self_nonneg z
  exact add_nonneg (add_nonneg hx hy) hz

/-! ## Magnitude and the default vector -/

/-- C8: for every vector `a`, whatever the scalar arithmetic and whatever
function `sqrt` is, `mag(a)` returns `sqrt` applied to what `dot(a, a)`
returns, that is `sqrt(a[0]*a[0] + a[1]*a[1] + a[2]*a[2])`; with the real
square root over the reals this is the Euclidean norm of `(a[0], a[1], a[2])`. -/
theorem mag_eq_sqrt_dot :
    (∀ (T D : Type) [Add T] [Mul T] (sqrt : T → D) (a : _vec3 T),
      ∃ a0 a1 a2 s,
        a.operator_index 0 = some a0 ∧ a.operator_index 1 = some a1 ∧
        a.operator_index 2 = some a2 ∧
        dot a a = some s ∧ s = a0 * a0 + a1 * a1 + a2 * a2 ∧
        mag sqrt a = some (sqrt s)) ∧
    (∀ (x y z : ℝ),
      mag Real.sqrt (mk3 x y z) =
        some ‖(WithLp.equiv 2 (Fin 3 → ℝ)).symm ![x, y, z]‖) := by
  refine ⟨?_, ?_⟩
  · intro T D _ _ sqrt a
    obtain ⟨x, y, z, rfl⟩ := a.exists_mk3
    exact ⟨x, y, z, _, rfl, rfl, rfl, rfl, rfl, rfl⟩
  · intro x y z
    rw [mag_mk3, EuclideanSpace.norm_eq]
    simp [Fin.sum_univ_three, sq_abs, pow_two]

/-- C9: over a scalar type in which `0 * 0 = 0` and `0 + 0 = 0`, and with a
square root that sends `0` to `0`, `mag` of the default-constructed vector
returns `0`. -/
theorem mag_zero {T D : Type} [NonUnitalNonAssocSemiring T] [Zero D] (sqrt : T → D)
    (hsqrt : sqrt 0 = 0) : mag sqrt (zero : _vec3 T) = some 0 := by
  have h : (zero : _vec3 T) = mk3 0 0 0 := rfl
  simp [h, hsqrt]

/-- C9 with the real square root over the reals. -/
theorem mag_zero_witness :
    Real.sqrt 0 = 0 ∧ mag Real.sqrt (zero : _vec3 ℝ) = some 0 :=
  ⟨Real.sqrt_zero, mag_zero Real.sqrt Real.sqrt_zero⟩

/-- C10: the default constructor yields a vector whose components at indices
`0`, `1` and `2` are all the zero of the scalar type: it is `(0,0,0)`. -/
theorem zero_components {T : Type} [Zero T] :
    (zero : _vec3 T).operator_index 0 = some 0 ∧
    (zero : _vec3 T).operator_index 1 = some 0 ∧
    (zero : _vec3 T).operator_index 2 = some 0 ∧
    (zero : _vec3 T) = mk3 0 0 0 :=
  ⟨rfl, rfl, rfl, rfl⟩

/-! ## Construction, component access and stream output -/

/-- C11: for all scalars `a`, `b`, `c`, the vector built by the three-argument
constructor has component `0` equal to `a`, component `1` equal to `b` and
component `2` equal to `c`: the read-only accessor at `i` returns the `i`-th
constructor argument, in order. -/
theorem mk3_components {T : Type} (a b c : T) :
    (mk3 a b c).operator_index 0 = some a ∧
    (mk3 a b c).operator_index 1 = some b ∧
    (mk3 a b c).operator_index 2 = some c ∧
    (mk3 a b c).d = [a, b, c] :=
  ⟨rfl, rfl, rfl, rfl⟩

/-- C12: for every vector `a`, `operator<<` appends to the stream exactly the
text of component `0`, one space, the text of component `1`, one space, the
text of component `2`, and nothing else; when the scalars `0`, `1`, `2` are
written as the digits `0`, `1`, `2`, the vector `(0,1,2)` written to an empty
stream gives the text `0 1 2`. -/
theorem operator_lshift_text :
    (∀ (T : Type) (text : T → String) (out : String) (a : _vec3 T),
      ∃ a0 a1 a2,
        a.operator_index 0 = some a0 ∧ a.operator_index 1 = some a1 ∧
        a.operator_index 2 = some a2 ∧
        operator_lshift text out a =
          some (out ++ (text a0 ++ (" " ++ (text a1 ++ (" " ++ text a2)))))) ∧
    (∀ (T : Type) [OfNat T 0] [OfNat T 1] [OfNat T 2] (text : T → String),
      text 0 = "0" → text 1 = "1" → text 2 = "2" →
        operator_lshift text "" (mk3 0 1 2) = some "0 1 2") := by
  refine ⟨?_, ?_⟩
  · intro T text out a
    obtain ⟨x, y, z, rfl⟩ := a.exists_mk3
    refine ⟨x, y, z, rfl, rfl, rfl, ?_⟩
    simp [String.append_assoc]
  · intro T _ _ _ text h0 h1 h2
    rw [operator_lshift_mk3, h0, h1, h2]
    decide

/-- C12 at a concrete input: the integer vector `(0,1,2)` with decimal
rendering of its components. -/
theorem operator_lshift_text_witness :
    (toString (0 : Int) = "0" ∧ toString (1 : Int) = "1" ∧ toString (2 : Int) = "2") ∧
    operator_lshift (fun n : Int => toString n) "" (mk3 0 1 2) = some "0 1 2" :=
  ⟨by decide, operator_lshift_text.2 Int (fun n : Int => toString n)
    (by decide) (by decide) (by decide)⟩

/-- C13: the unchecked read is defined exactly at the indices `0`, `1`, `2`,
and `operator+`, `operator-`, `dot`, `mag` and `operator<<`, which read their
operands only through it, return a result for every input: none of them ever
reads out of range. -/
theorem operations_stay_in_range :
    (∀ (T : Type) (v : _vec3 T) (i : Int),
      (v.operator_index i).isSome = true ↔ i = 0 ∨ i = 1 ∨ i = 2) ∧
    (∀ (T : Type) [Add T] (a b : _vec3 T), (operator_plus a b).isSome = true) ∧
    (∀ (T : Type) [Sub T] (a b : _vec3 T), (operator_minus a b).isSome = true) ∧
    (∀ (T : Type) [Add T] [Mul T] (a b : _vec3 T), (dot a b).isSome = true) ∧
    (∀ (T D : Type) [Add T] [Mul T] (sqrt : T → D) (a : _vec3 T),
      (mag sqrt a).isSome = true) ∧
    (∀ (T : Type) (text : T → String) (out : String) (a : _vec3 T),
      (operator_lshift text out a).isSome = true) := by
  refine ⟨?_, ?_, ?_, ?_, ?_, ?_⟩
  · intro T v i
    exact v.operator_index_isSome_iff i
  · intro T _ a b
    obtain ⟨x, y, z, rfl⟩ := a.exists_mk3
    obtain ⟨u, v, w, rfl⟩ := b.exists_mk3
    rfl
  · intro T _ a b
    obtain ⟨x, y, z, rfl⟩ := a.exists_mk3
    obtain ⟨u, v, w, rfl⟩ := b.exists_mk3
    rfl
  · intro T _ _ a b
    obtain ⟨x, y, z, rfl⟩ := a.exists_mk3
    obtain ⟨u, v, w, rfl⟩ := b.exists_mk3
    rfl
  · intro T D _ _ sqrt a
    obtain ⟨x, y, z, rfl⟩ := a.exists_mk3
    rfl
  · intro T text out a
    obtain ⟨x, y, z, rfl⟩ := a.exists_mk3
    rfl

/-- C14: for every vector `v`, every index `i` among `0, 1, 2` and every scalar
`x`, the assignment `v[i] = x` through the mutable accessor yields a vector
whose component `i` is `x` and whose read at every other index is what it was
in `v`. -/
theorem operator_index_assign_frame {T : Type} (v : _vec3 T) (i : Int) (x : T)
    (hi : i = 0 ∨ i = 1 ∨ i = 2) :
    ∃ w, v.operator_index_assign i x = some w ∧ w.operator_index i = some x ∧
      ∀ j : Int, j ≠ i → w.operator_index j = v.operator_index j := by
  obtain ⟨a, b, c, rfl⟩ := v.exists_mk3
  rcases hi with rfl | rfl | rfl
  · exact ⟨mk3 x b c, rfl, rfl, fun j hj => _vec3.mk3_index_ne_zero a x b c j hj⟩
  · exact ⟨mk3 a x c, rfl, rfl, fun j hj => _vec3.mk3_index_ne_one b x a c j hj⟩
  · exact ⟨mk3 a b x, rfl, rfl, fun j hj => _vec3.mk3_index_ne_two c x a b j hj⟩

/-- C14 at a concrete input: `v[1] = 9` on the integer vector `(5,6,7)`. -/
theorem operator_index_assign_frame_witness :
    ((1 : Int) = 0 ∨ (1 : Int) = 1 ∨ (1 : Int) = 2) ∧
    ∃ w, (mk3 (5 : Int) 6 7).operator_index_assign 1 9 = some w ∧
      w.operator_index 1 = some 9 ∧
      ∀ j : Int, j ≠ 1 → w.operator_index j = (mk3 (5 : Int) 6 7).operator_index j :=
  ⟨by decide, operator_index_assign_frame (mk3 5 6 7) 1 9 (by decide)⟩

/-! ## Linearity, definiteness and the triangle inequality -/

/-- C15, amended: `dot` is linear in its first argument when the scalar
arithmetic is exact.  For all vectors `a`, `b`, `c` over a scalar type with
associative, commutative addition and multiplication distributing over it, `dot(a + b, c)` returns
`dot(a, c) + dot(b, c)`, and, when the scalars also have subtraction,
`dot(a - b, c)` returns `dot(a, c) - dot(b, c)`. -/
theorem dot_linear_left :
    (∀ (T : Type) [NonUnitalNonAssocSemiring T] (a b c : _vec3 T),
      ∃ s ac bc, operator_plus a b = some s ∧ dot a c = some ac ∧ dot b c = some bc ∧
        dot s c = some (ac + bc)) ∧
    (∀ (T : Type) [NonUnitalNonAssocRing T] (a b c : _vec3 T),
      ∃ s ac bc, operator_minus a b = some s ∧ dot a c = some ac ∧ dot b c = some bc ∧
        dot s c = some (ac - bc)) := by
  refine ⟨?_, ?_⟩
  · intro T _ a b c
    obtain ⟨x, y, z, rfl⟩ := a.exists_mk3
    obtain ⟨u, v, w, rfl⟩ := b.exists_mk3
    obtain ⟨p, q, r, rfl⟩ := c.exists_mk3
    refine ⟨_, _, _, rfl, rfl, rfl, ?_⟩
    rw [dot_mk3, add_mul, add_mul, add_mul]
    congr 1
    abel
  · intro T _ a b c
    obtain ⟨x, y, z, rfl⟩ := a.exists_mk3
    obtain ⟨u, v, w, rfl⟩ := b.exists_mk3
    obtain ⟨p, q, r, rfl⟩ := c.exists_mk3
    refine ⟨_, _, _, rfl, rfl, rfl, ?_⟩
    rw [dot_mk3, sub_mul, sub_mul, sub_mul]
    congr 1
    abel

/-- C15 on `double`, where it fails: with `a = (1,0,0)`, `b = (0, 2^60, -2^60)`
and `c = (1,1,1)`, `dot(a + b, c)` returns `0`, because `1 + 2^60` is rounded to
`2^60`, while `dot(a, c) + dot(b, c)` is `1 + 0 = 1`; likewise, with
`b = (0, -2^60, 2^60)`, `a - b` is the same vector, so `dot(a - b, c)` returns
`0`, while `dot(a, c) - dot(b, c)` is `1 - 0 = 1`. -/
theorem dot_linear_left_fails_on_double :
    operator_plus (mk3 (double.ofInt 1) (double.ofInt 0) (double.ofInt 0))
        (mk3 (double.ofInt 0) (double.ofInt (2 ^ 60)) (double.ofInt (-(2 ^ 60)))) =
      some (mk3 (double.ofInt 1) (double.ofInt (2 ^ 60)) (double.ofInt (-(2 ^ 60)))) ∧
    dot (mk3 (double.ofInt 1) (double.ofInt (2 ^ 60)) (double.ofInt (-(2 ^ 60))))
        (mk3 (double.ofInt 1) (double.ofInt 1) (double.ofInt 1)) = some (double.ofInt 0) ∧
    dot (mk3 (double.ofInt 1) (double.ofInt 0) (double.ofInt 0))
        (mk3 (double.ofInt 1) (double.ofInt 1) (double.ofInt 1)) = some (double.ofInt 1) ∧
    dot (mk3 (double.ofInt 0) (double.ofInt (2 ^ 60)) (double.ofInt (-(2 ^ 60))))
        (mk3 (double.ofInt 1) (double.ofInt 1) (double.ofInt 1)) = some (double.ofInt 0) ∧
    double.ofInt 1 + double.ofInt 0 = double.ofInt 1 ∧
    operator_minus (mk3 (double.ofInt 1) (double.ofInt 0) (double.ofInt 0))
        (mk3 (double.ofInt 0) (double.ofInt (-(2 ^ 60))) (double.ofInt (2 ^ 60))) =
      some (mk3 (double.ofInt 1) (double.ofInt (2 ^ 60)) (double.ofInt (-(2 ^ 60)))) ∧
    dot (mk3 (double.ofInt 0) (double.ofInt (-(2 ^ 60))) (double.ofInt (2 ^ 60)))
        (mk3 (double.ofInt 1) (double.ofInt 1) (double.ofInt 1)) = some (double.ofInt 0) ∧
    double.ofInt 1 - double.ofInt 0 = double.ofInt 1 ∧
    double.ofInt 0 ≠ double.ofInt 1 := by
  decide!

/-- C16, amended: over a scalar type with exact arithmetic and an order, a
linearly ordered ring, with a square root that is `0` at `0`
only among the non-negative scalars (as the real square root is), `mag(a)`
returns `0` if and only if all three components of `a` are `0`, and likewise
`dot(a, a)`; and `mag(a - b)` returns `0` if and only if `a` and `b` agree in
every component. -/
theorem mag_definite {T D : Type} [LinearOrderedRing T] [Zero D] (sqrt : T → D)
    (hsqrt : ∀ t : T, 0 ≤ t → (sqrt t = 0 ↔ t = 0)) (a b : _vec3 T) :
    (mag sqrt a = some 0 ↔
      a.operator_index 0 = some 0 ∧ a.operator_index 1 = some 0 ∧
      a.operator_index 2 = some 0) ∧
    (dot a a = some 0 ↔
      a.operator_index 0 = some 0 ∧ a.operator_index 1 = some 0 ∧
      a.operator_index 2 = some 0) ∧
    (∃ s, operator_minus a b = some s ∧
      (mag sqrt s = some 0 ↔
        ∀ i : Int, i = 0 ∨ i = 1 ∨ i = 2 → a.operator_index i = b.operator_index i)) := by
  obtain ⟨x, y, z, rfl⟩ := a.exists_mk3
  obtain ⟨u, v, w, rfl⟩ := b.exists_mk3
  have hnn : ∀ p q r : T, 0 ≤ p * p + q * q + r * r := fun p q r =>
    add_nonneg (add_nonneg (mul_self_nonneg p) (mul_self_nonneg q)) (mul_self_nonneg r)
  have hmag : ∀ p q r : T, mag sqrt (mk3 p q r) = some 0 ↔ p = 0 ∧ q = 0 ∧ r = 0 := by
    intro p q r
    rw [mag_mk3, Option.some_inj, hsqrt _ (hnn p q r), sum_three_squares_eq_zero_iff]
  refine ⟨?_, ?_, _, rfl, ?_⟩
  · rw [hmag]
    simp
  · rw [dot_mk3, Option.some_inj, sum_three_squares_eq_zero_iff]
    simp
  · rw [hmag, sub_eq_zero, sub_eq_zero, sub_eq_zero]
    constructor
    · rintro ⟨rfl, rfl, rfl⟩ i _
      rfl
    · intro h
      have h0 := h 0 (Or.inl rfl)
      have h1 := h 1 (Or.inr (Or.inl rfl))
      have h2 := h 2 (Or.inr (Or.inr rfl))
      simp only [_vec3.mk3_index_zero, _vec3.mk3_index_one, _vec3.mk3_index_two,
        Option.some_inj] at h0 h1 h2
      exact ⟨h0, h1, h2⟩

/-- C16 with the real square root over the reals, at `a = b = (1,2,3)`. -/
theorem mag_definite_witness :
    (∀ t : ℝ, 0 ≤ t → (Real.sqrt t = 0 ↔ t = 0)) ∧
    ((mag Real.sqrt (mk3 (1 : ℝ) 2 3) = some 0 ↔
      (mk3 (1 : ℝ) 2 3).operator_index 0 = some 0 ∧
      (mk3 (1 : ℝ) 2 3).operator_index 1 = some 0 ∧
      (mk3 (1 : ℝ) 2 3).operator_index 2 = some 0) ∧
    (dot (mk3 (1 : ℝ) 2 3) (mk3 (1 : ℝ) 2 3) = some 0 ↔
      (mk3 (1 : ℝ) 2 3).operator_index 0 = some 0 ∧
      (mk3 (1 : ℝ) 2 3).operator_index 1 = some 0 ∧
      (mk3 (1 : ℝ) 2 3).operator_index 2 = some 0) ∧
    (∃ s, operator_minus (mk3 (1 : ℝ) 2 3) (mk3 (1 : ℝ) 2 3) = some s ∧
      (mag Real.sqrt s = some 0 ↔
        ∀ i : Int, i = 0 ∨ i = 1 ∨ i = 2 →
          (mk3 (1 : ℝ) 2 3).operator_index i = (mk3 (1 : ℝ) 2 3).operator_index i))) :=
  ⟨fun _ ht => Real.sqrt_eq_zero ht,
    mag_definite Real.sqrt (fun _ ht => Real.sqrt_eq_zero ht) (mk3 1 2 3) (mk3 1 2 3)⟩

/-- C16 on `double`, where it fails: for `a = (2^-600, 0, 0)`, which is not the
zero vector, the square `2^-1200` underflows to `0`, so `dot(a, a)` and `mag(a)`
return `0`; and with `b` the default vector, `a - b` is `a`, so `mag(a - b)`
returns `0` although `a` and `b` differ at index `0`. -/
theorem mag_definite_fails_on_double :
    dot (mk3 (double.finite ((2 ^ 474 : Nat) : Int)) (double.ofInt 0) (double.ofInt 0))
        (mk3 (double.finite ((2 ^ 474 : Nat) : Int)) (double.ofInt 0) (double.ofInt 0)) =
      some (double.ofInt 0) ∧
    mag double.sqrt (mk3 (double.finite ((2 ^ 474 : Nat) : Int)) (double.ofInt 0)
        (double.ofInt 0)) = some (double.ofInt 0) ∧
    operator_minus (mk3 (double.finite ((2 ^ 474 : Nat) : Int)) (double.ofInt 0) (double.ofInt 0))
        (zero : _vec3 double) =
      some (mk3 (double.finite ((2 ^ 474 : Nat) : Int)) (double.ofInt 0) (double.ofInt 0)) ∧
    (mk3 (double.finite ((2 ^ 474 : Nat) : Int)) (double.ofInt 0)
        (double.ofInt 0)).operator_index 0 ≠ (zero : _vec3 double).operator_index 0 ∧
    (zero : _vec3 double) = mk3 (double.ofInt 0) (double.ofInt 0) (double.ofInt 0) := by
  decide!

/-- C17, amended: over the reals with the exact real square root, `mag(a + b)` is at most
`mag(a) + mag(b)` for all vectors `a` and `b`; and over any linearly ordered
commutative ring `dot(a, b)^2` is at most `dot(a, a) * dot(b, b)`. -/
theorem mag_triangle :
    (∀ (a b : _vec3 ℝ),
      ∃ s ms ma mb, operator_plus a b = some s ∧ mag Real.sqrt s = some ms ∧
        mag Real.sqrt a = some ma ∧ mag Real.sqrt b = some mb ∧ ms ≤ ma + mb) ∧
    (∀ (T : Type) [LinearOrderedCommRing T] (a b : _vec3 T),
      ∃ ab aa bb, dot a b = some ab ∧ dot a a = some aa ∧ dot b b = some bb ∧
        ab ^ 2 ≤ aa * bb) := by
  refine ⟨?_, ?_⟩
  · intro a b
    obtain ⟨x, y, z, rfl⟩ := a.exists_mk3
    obtain ⟨u, v, w, rfl⟩ := b.exists_mk3
    exact ⟨_, _, _, _, rfl, rfl, rfl, rfl, sqrt_sum_squares_add_le x y z u v w⟩
  · intro T _ a b
    obtain ⟨x, y, z, rfl⟩ := a.exists_mk3
    obtain ⟨u, v, w, rfl⟩ := b.exists_mk3
    exact ⟨_, _, _, rfl, rfl, rfl, cauchy_schwarz_three x y z u v w⟩

/-- C17 on `double`, where it fails: for `a = (6,6,5)` and `b = (12,12,10)`,
`mag(a + b)` is the rounded square root of `873`, `8316621061161364 * 2^-48`,
and `mag(a) + mag(b)` is the rounded sum of the rounded square roots of `97` and
`388`, `8316621061161363 * 2^-48`, which is smaller by one unit in the last
place. -/
theorem mag_triangle_fails_on_double :
    operator_plus (mk3 (double.ofInt 6) (double.ofInt 6) (double.ofInt 5))
        (mk3 (double.ofInt 12) (double.ofInt 12) (double.ofInt 10)) =
      some (mk3 (double.ofInt 18) (double.ofInt 18) (double.ofInt 15)) ∧
    mag double.sqrt (mk3 (double.ofInt 18) (double.ofInt 18) (double.ofInt 15)) =
      some (double.finite ((8316621061161364 * 2 ^ 1026 : Nat) : Int)) ∧
    mag double.sqrt (mk3 (double.ofInt 6) (double.ofInt 6) (double.ofInt 5)) =
      some (double.finite ((2772207020387121 * 2 ^ 1026 : Nat) : Int)) ∧
    mag double.sqrt (mk3 (double.ofInt 12) (double.ofInt 12) (double.ofInt 10)) =
      some (double.finite ((2772207020387121 * 2 ^ 1027 : Nat) : Int)) ∧
    double.finite ((2772207020387121 * 2 ^ 1026 : Nat) : Int) +
        double.finite ((2772207020387121 * 2 ^ 1027 : Nat) : Int) =
      double.finite ((8316621061161363 * 2 ^ 1026 : Nat) : Int) ∧
    ¬ double.finite ((8316621061161364 * 2 ^ 1026 : Nat) : Int) ≤
        double.finite ((2772207020387121 * 2 ^ 1026 : Nat) : Int) +
          double.finite ((2772207020387121 * 2 ^ 1027 : Nat) : Int) := by
  refine ⟨by decide!, ?_, ?_, ?_, by decide!, by decide!⟩
  · rw [mag_mk3]
    have hd : double.ofInt 18 * double.ofInt 18 + double.ofInt 18 * double.ofInt 18 +
        double.ofInt 15 * double.ofInt 15 = double.finite ((873 * 2 ^ 1074 : Nat) : Int) := by
      decide!
    rw [hd, double.sqrt_finite_eq _
      478921743565405889969725460260843586961787318200502174074820762490376536840095493054731125747909842642462713961929426215890210140689469931858425274879377235291778371714364365008071
      (by decide!) (by decide!) (by decide!)]
    decide!
  · rw [mag_mk3]
    have hd : double.ofInt 6 * double.ofInt 6 + double.ofInt 6 * double.ofInt 6 +
        double.ofInt 5 * double.ofInt 5 = double.finite ((97 * 2 ^ 1074 : Nat) : Int) := by
      decide!
    rw [hd, double.sqrt_finite_eq _
      159640581188468629989908486753614528987262439400167391358273587496792178946698497684910375249303280880820904653976475405296736713563156643952808424959792411763926123904788121669357
      (by decide!) (by decide!) (by decide!)]
    decide!
  · rw [mag_mk3]
    have hd : double.ofInt 12 * double.ofInt 12 + double.ofInt 12 * double.ofInt 12 +
        double.ofInt 10 * double.ofInt 10 = double.finite ((388 * 2 ^ 1074 : Nat) : Int) := by
      decide!
    rw [hd, double.sqrt_finite_eq _
      319281162376937259979816973507229057974524878800334782716547174993584357893396995369820750498606561761641809307952950810593473427126313287905616849919584823527852247809576243338714
      (by decide!) (by decide!) (by decide!)]
    decide!

end Vec
